import Mathlib

/-!
Verification development for the grabjobs spatial index (Go R-tree).

The Go source is shallowly embedded: float64 values are modelled as exact
rationals; the places where Go float arithmetic can produce +Inf or NaN
(divisions by a zero area in percentage-expansion computations and in the
normalized split separations) are modelled explicitly with an extended value
type `FVal`.  Go slices become lists, Go panics become `Except.error` with a
`Failure.panicked` payload, and the unbounded `for` loop inside node splitting
is modelled with explicit fuel (`Failure.outOfFuel` reports that the loop did
not exit within the given fuel).  The external haversine library is a
parameter: a function producing the (miles, kilometres) pair, exactly the
shape of the Go library's `Distance` result.
-/

namespace GrabJobs

/-- models.Location: a 2D representation of a place on a map. -/
structure Location where
  longitude : ℚ
  latitude : ℚ
deriving DecidableEq, Repr

/-- models.Job: a job record (title plus point location). -/
structure Job where
  title : String
  location : Location
deriving DecidableEq, Repr

/-- models.DistanceUnit. -/
inductive DistanceUnit where
  | unknownUnit
  | kilometer
deriving DecidableEq, Repr

/-- models.Distance: a magnitude with a unit. -/
structure Distance where
  unit : DistanceUnit
  value : ℚ
deriving DecidableEq, Repr

/-- rtree.mbr: minimum bounding rectangle, field for field as in mbr.go. -/
structure Mbr where
  maxY : ℚ
  minY : ℚ
  maxX : ℚ
  minX : ℚ
deriving DecidableEq, Repr

/-- The zero value a fresh Go `new(node)` gives its mbr field. -/
def zeroMbr : Mbr := ⟨0, 0, 0, 0⟩

/-- rtree.arbitraryMBRDimFactor = 0.2. -/
def arbitraryMBRDimFactor : ℚ := 1/5

/-- rtree.newMBRAround: draw an mbr around a location. -/
def newMBRAround (location : Location) : Mbr :=
  { maxY := location.longitude + arbitraryMBRDimFactor
    minY := location.longitude - arbitraryMBRDimFactor
    maxX := location.latitude + arbitraryMBRDimFactor
    minX := location.latitude - arbitraryMBRDimFactor }

namespace Mbr

/-- mbr.height. -/
def height (m : Mbr) : ℚ := m.maxY - m.minY

/-- mbr.width. -/
def width (m : Mbr) : ℚ := m.maxX - m.minX

/-- mbr.area = |height * width|. -/
def area (m : Mbr) : ℚ := |m.height * m.width|

/-- mbr.overlapsWith. -/
def overlapsWith (m other : Mbr) : Bool :=
  if m.area = 0 || other.area = 0 then false
  else if m.minX > other.maxX || other.minX > m.maxX then false
  else if m.minY > other.maxY || other.minY > m.maxY then false
  else true

/-- mbr.canFitWithin: the source's test that m can fit inside other
without expanding other. -/
def canFitWithin (m other : Mbr) : Bool :=
  if m.area < other.area then false
  else
    let fitsWithinWidth := other.minX < m.minX && other.maxX > m.maxX
    let fitsWithinHeight := other.minY < m.minY && other.maxY > m.maxY
    fitsWithinWidth && fitsWithinHeight

/-- mbr.expandToAccommodate: directional expansion of m to cover child. -/
def expandToAccommodate (m child : Mbr) : Mbr :=
  let e1 : Mbr := if child.minX < m.minX then { m with minX := child.minX } else m
  let e2 : Mbr := if child.maxX > m.maxX then { e1 with maxX := child.maxX } else e1
  let e3 : Mbr := if child.minY < m.minY then { e2 with minY := child.minY } else e2
  if child.maxY > m.maxY then { e3 with maxY := child.maxY } else e3

/-- mbr.shrinkOnRemoval: the source's directional shrink of m when child
is removed (each branch subtracts the child's coordinate when it coincides
with the corresponding bound of m; the maxY branch tests with > instead). -/
def shrinkOnRemoval (m child : Mbr) : Mbr :=
  let s1 : Mbr := if child.minX = m.minX then { m with minX := m.minX - child.minX } else m
  let s2 : Mbr := if child.maxX = m.maxX then { s1 with maxX := s1.maxX - child.maxX } else s1
  let s3 : Mbr := if child.minY = m.minY then { s2 with minY := s2.minY - child.minY } else s2
  if child.maxY > m.maxY then { s3 with maxY := s3.maxY - child.maxY } else s3

end Mbr

/-- Extended float value: the results Go float64 division can produce when
the denominator is zero.  Only the comparison operators the source uses are
modelled, with IEEE semantics (every comparison with NaN is false). -/
inductive FVal where
  | fin (q : ℚ)
  | pinf
  | ninf
  | nan
deriving DecidableEq, Repr

namespace FVal

/-- IEEE strict less-than on extended values. -/
def lt : FVal → FVal → Bool
  | fin a, fin b => a < b
  | fin _, pinf => true
  | ninf, fin _ => true
  | ninf, pinf => true
  | _, _ => false

/-- IEEE greater-than. -/
def gt (a b : FVal) : Bool := lt b a

/-- IEEE equality (NaN is not equal to anything, infinities are equal to
themselves). -/
def feq : FVal → FVal → Bool
  | fin a, fin b => a = b
  | pinf, pinf => true
  | ninf, ninf => true
  | _, _ => false

end FVal

/-- Go float64 division a / b as an extended value (b = 0 yields NaN or a
signed infinity depending on a; the numerators and denominators the source
divides are ordinary finite values). -/
def qdivF (a b : ℚ) : FVal :=
  if b = 0 then
    if a = 0 then .nan else if 0 < a then .pinf else .ninf
  else .fin (a / b)

namespace Mbr

/-- mbr.calculatePercentageExpansion: percentage area expansion needed for
m to accommodate child (+Inf when the child is strictly larger). -/
def calculatePercentageExpansion (m child : Mbr) : FVal :=
  if child.area > m.area then .pinf
  else qdivF ((m.expandToAccommodate child).area * 100) m.area

end Mbr

/-- Failure outcomes of the embedded Go code.  `returnedError` is an error
value returned to the caller, `panicked` a Go panic (process crash),
`invariantViolation` the error signal the specification's taxonomy demands
(the source never produces it), and `outOfFuel` the embedding's marker that
a source-level unbounded loop did not exit within the given fuel. -/
inductive Failure where
  | returnedError (msg : String)
  | panicked (msg : String)
  | invariantViolation
  | outOfFuel
deriving DecidableEq, Repr

/-- rtree.maxEntriesPerLeaf = 30. -/
def maxEntriesPerLeaf : ℕ := 30

/-- rtree.minEntriesPerLeaf = maxEntriesPerLeaf / 5 = 6. -/
def minEntriesPerLeaf : ℕ := maxEntriesPerLeaf / 5

/-- rtree.entry: a job together with the mbr bounding its location. -/
structure Entry where
  job : Job
  mbr : Mbr
deriving DecidableEq, Repr

/-- rtree.NewEntry. -/
def NewEntry (j : Job) : Entry := ⟨j, newMBRAround j.location⟩

/-- rtree.node: mbr, children and entries, as in node.go.  The Go `parent`
back-pointer is not representable in a value tree; the tree-level functions
below thread the information it carries (the position of a node in the
tree) as an explicit child-index path instead. -/
inductive Node where
  | mk (mbr : Mbr) (children : List Node) (entries : List Entry)

/-- The node's bounding rectangle. -/
def Node.mbr : Node → Mbr
  | .mk m _ _ => m

/-- The node's children. -/
def Node.children : Node → List Node
  | .mk _ c _ => c

/-- The node's entries. -/
def Node.entries : Node → List Entry
  | .mk _ _ e => e

mutual

/-- Structural equality on nodes, standing in for Go pointer identity where
the source compares a child against a distinct-valued node. -/
def Node.beq : Node → Node → Bool
  | .mk m1 c1 e1, .mk m2 c2 e2 =>
    decide (m1 = m2) && Node.beqList c1 c2 && decide (e1 = e2)

/-- Pointwise `Node.beq` on lists of nodes. -/
def Node.beqList : List Node → List Node → Bool
  | [], [] => true
  | a :: as, b :: bs => Node.beq a b && Node.beqList as bs
  | _, _ => false

end

/-- Propositional equality on Except values is decidable componentwise. -/
def exceptDecEq {E A : Type} [DecidableEq E] [DecidableEq A] :
    (a b : Except E A) → Decidable (a = b)
  | .error x, .error y =>
    if h : x = y then .isTrue (by rw [h]) else .isFalse (fun hh => h (Except.error.inj hh))
  | .error _, .ok _ => .isFalse (fun hh => Except.noConfusion hh)
  | .ok _, .error _ => .isFalse (fun hh => Except.noConfusion hh)
  | .ok x, .ok y =>
    if h : x = y then .isTrue (by rw [h]) else .isFalse (fun hh => h (Except.ok.inj hh))

instance {E A : Type} [DecidableEq E] [DecidableEq A] : DecidableEq (Except E A) :=
  exceptDecEq

mutual

/-- Structural equality of nodes is decidable. -/
def nodeDecEq : (a b : Node) → Decidable (a = b)
  | .mk m1 c1 e1, .mk m2 c2 e2 =>
    if hm : m1 = m2 then
      if he : e1 = e2 then
        match nodeListDecEq c1 c2 with
        | .isTrue hc => .isTrue (by rw [hm, he, hc])
        | .isFalse hc => .isFalse (fun h => hc (congrArg Node.children h))
      else .isFalse (fun h => he (congrArg Node.entries h))
    else .isFalse (fun h => hm (congrArg Node.mbr h))

/-- Structural equality of node lists is decidable. -/
def nodeListDecEq : (a b : List Node) → Decidable (a = b)
  | [], [] => .isTrue rfl
  | [], _ :: _ => .isFalse (fun h => List.noConfusion h)
  | _ :: _, [] => .isFalse (fun h => List.noConfusion h)
  | x :: xs, y :: ys =>
    match nodeDecEq x y, nodeListDecEq xs ys with
    | .isTrue h1, .isTrue h2 => .isTrue (by rw [h1, h2])
    | .isFalse h1, _ => .isFalse (fun h => by injection h with ha hb; exact h1 ha)
    | .isTrue _, .isFalse h2 => .isFalse (fun h => by injection h with ha hb; exact h2 hb)

end

instance : DecidableEq Node := nodeDecEq

/-- node.isLeaf: no children and at least one entry. -/
def Node.isLeaf (n : Node) : Bool := n.children.isEmpty && !n.entries.isEmpty

/-- node.hasEntrySpace. -/
def Node.hasEntrySpace (n : Node) : Bool := n.entries.length + 1 ≤ maxEntriesPerLeaf

/-- node.hasNodeSpace. -/
def Node.hasNodeSpace (n : Node) : Bool := n.children.length + 2 ≤ maxEntriesPerLeaf

/-- node.insertEntry: append the entry and expand the node's mbr. -/
def Node.insertEntry (n : Node) (e : Entry) : Node :=
  .mk (n.mbr.expandToAccommodate e.mbr) n.children (n.entries ++ [e])

/-- node.insertChild: append the child and expand the node's mbr (the
child's parent pointer assignment has no counterpart in a value tree). -/
def Node.insertChild (n : Node) (c : Node) : Node :=
  .mk (n.mbr.expandToAccommodate c.mbr) (n.children ++ [c]) n.entries

/-- node.insertMultipleEntry. -/
def Node.insertMultipleEntry (n : Node) (es : List Entry) : Node :=
  es.foldl Node.insertEntry n

/-- node.insertMultipleChildren. -/
def Node.insertMultipleChildren (n : Node) (cs : List Node) : Node :=
  cs.foldl Node.insertChild n

/-- Remove the first child structurally equal to the argument (Go: the
pointer-search loop in node.removeChild). -/
def removeFirstMatch : List Node → Node → List Node
  | [], _ => []
  | c :: cs, x => if Node.beq c x then cs else c :: removeFirstMatch cs x

/-- node.removeChild: drop the matching child and shrink the node's mbr via
shrinkOnRemoval (the Go code also nils out the removed child's parent
pointer, which has no counterpart here). -/
def Node.removeChild (n : Node) (child : Node) : Node :=
  .mk (n.mbr.shrinkOnRemoval child.mbr) (removeFirstMatch n.children child) n.entries

/-- entry.insertIntoAny: insert e into whichever of the two split groups
needs the least percentage expansion; ties go to the group with the smaller
area.  The three Go `if` statements are mutually exclusive; when both
percentages are NaN none of them fires and the entry is inserted into
neither group. -/
def Entry.insertIntoAny (e : Entry) (n1 n2 : Node) : Node × Node :=
  let n1P := n1.mbr.calculatePercentageExpansion e.mbr
  let n2P := n2.mbr.calculatePercentageExpansion e.mbr
  if n2P.gt n1P then (n1.insertEntry e, n2)
  else if n1P.gt n2P then (n1, n2.insertEntry e)
  else if n1P.feq n2P then
    if n2.mbr.area < n1.mbr.area then (n1, n2.insertEntry e)
    else (n1.insertEntry e, n2)
  else (n1, n2)

/-- node.snInsertIntoAny: the same distribution step for child nodes. -/
def Node.snInsertIntoAny (c : Node) (n1 n2 : Node) : Node × Node :=
  let n1P := n1.mbr.calculatePercentageExpansion c.mbr
  let n2P := n2.mbr.calculatePercentageExpansion c.mbr
  if n2P.gt n1P then (n1.insertChild c, n2)
  else if n1P.gt n2P then (n1, n2.insertChild c)
  else if n1P.feq n2P then
    if n2.mbr.area < n1.mbr.area then (n1, n2.insertChild c)
    else (n1.insertChild c, n2)
  else (n1, n2)

/-- Go slice element removal `append(l[:i], l[i+1:]...)` with Go's slicing
bounds check: a negative index or an index past the end panics. -/
def goSliceRemove {α : Type} (l : List α) (i : ℤ) : Except Failure (List α) :=
  if i < 0 ∨ (l.length : ℤ) < i + 1 then
    .error (.panicked "runtime error: slice bounds out of range")
  else .ok (l.take i.toNat ++ l.drop (i.toNat + 1))

/-- node.removeEntries / node.removeChildren index arithmetic: remove the
element at i1, shift i2 (the source shifts it the wrong way when i1 ≤ i2,
and to i2+1 when i1 > i2), then remove at the shifted index. -/
def goRemoveTwo {α : Type} (i1 i2 : ℕ) (l : List α) : Except Failure (List α) := do
  let l1 ← goSliceRemove l (i1 : ℤ)
  let i2s : ℤ := if (i1 : ℤ) > (i2 : ℤ) then (i2 : ℤ) + 1 else (i2 : ℤ) - 1
  goSliceRemove l1 i2s


/-- Tracker state of the seed-picking scan: the current upmost, downmost,
rightmost and leftmost item, each with the index that stands in for the Go
pointer to it. -/
structure SeedScan (A : Type) where
  upmost : A × ℕ
  downmost : A × ℕ
  rightmost : A × ℕ
  leftmost : A × ℕ

/-- One iteration of the seed-picking scan of linearPickSeed and
snLinearPickSeed, on the i-th item.  The four updates mirror the four Go
conditions verbatim (each compares a difference of bounds of the group
rectangle and the item against a bound of the current tracker); the four
sequential Go statements touch four disjoint trackers, so they are written
here as four independent field updates. -/
def seedScanStep {A : Type} (mbrOf : A → Mbr) (nmbr : Mbr)
    (st : SeedScan A) (i : ℕ) (item : A) : SeedScan A :=
  { leftmost := if nmbr.minX - (mbrOf item).maxX < (mbrOf st.leftmost.1).maxX
      then (item, i) else st.leftmost
    downmost := if nmbr.minY - (mbrOf item).maxY < (mbrOf st.downmost.1).maxY
      then (item, i) else st.downmost
    rightmost := if nmbr.maxX - (mbrOf item).minX < (mbrOf st.rightmost.1).minX
      then (item, i) else st.rightmost
    upmost := if nmbr.maxY - (mbrOf item).minY < (mbrOf st.upmost.1).minY
      then (item, i) else st.upmost }

/-- The shared body of linearPickSeed / snLinearPickSeed on a list of items
with their mbrs: scan for the four extreme items, compute the normalized
separations along each axis (zero unless the rightmost and leftmost
trackers are different objects — index inequality stands in for Go pointer
inequality), pick the axis with the larger normalized separation and delete
the two chosen seeds from the item list with the source's removeEntries /
removeChildren index arithmetic.  Returns the two seeds and the remaining
pool.  A list of exactly two items is returned as the two seeds without any
deletion, as in the source; an empty list dereferences items[0], a Go
index-out-of-range panic. -/
def linearPickSeedCore {A : Type} (mbrOf : A → Mbr) (nmbr : Mbr) :
    List A → Except Failure (A × A × List A)
  | [] => .error (.panicked "runtime error: index out of range")
  | [a, b] => .ok (a, b, [a, b])
  | items@(a0 :: _) => do
    let init : SeedScan A := ⟨(a0, 0), (a0, 0), (a0, 0), (a0, 0)⟩
    let st := (items.enum).foldl
      (fun st p => seedScanStep mbrOf nmbr st p.1 p.2) init
    let neq := st.rightmost.2 ≠ st.leftmost.2
    let sepAlongY : ℚ :=
      if neq then (mbrOf st.upmost.1).minY - (mbrOf st.downmost.1).maxY else 0
    let sepAlongX : ℚ :=
      if neq then (mbrOf st.rightmost.1).minX - (mbrOf st.leftmost.1).maxX else 0
    let nY := qdivF sepAlongY nmbr.height
    let nX := qdivF sepAlongX nmbr.width
    if nY.gt nX then do
      let pool ← goRemoveTwo st.upmost.2 st.downmost.2 items
      .ok (st.upmost.1, st.downmost.1, pool)
    else do
      let pool ← goRemoveTwo st.leftmost.2 st.rightmost.2 items
      .ok (st.rightmost.1, st.leftmost.1, pool)

/-- node.linearPickSeed, acting on the node's entries. -/
def Node.linearPickSeed (n : Node) : Except Failure (Entry × Entry × List Entry) :=
  linearPickSeedCore Entry.mbr n.mbr n.entries

/-- node.snLinearPickSeed, acting on the node's children. -/
def Node.snLinearPickSeed (n : Node) : Except Failure (Node × Node × List Node) :=
  linearPickSeedCore Node.mbr n.mbr n.children

/-- The split distribution loop of node.splitLeaf.  The loop state is the
remaining pool (the drained node's entries) and the two groups; the loop
exits when the pool is empty or one of the two forced-assignment conditions
fires.  pickNext removes the head of the pool, except that a pool of length
one is returned with its element left in place (the source's pickNext
returns without deleting in that case).  `Failure.outOfFuel` reports that
the loop did not exit within the given fuel. -/
def distribLoop : ℕ → List Entry → Node → Node → Except Failure (Node × Node × List Entry)
  | 0, _, _, _ => .error .outOfFuel
  | fuel+1, pool, n1, n2 =>
    if pool.isEmpty then .ok (n1, n2, pool)
    else if pool.length < minEntriesPerLeaf ∧ n1.entries.length < minEntriesPerLeaf
        ∧ n2.entries.length > minEntriesPerLeaf then
      .ok (n1.insertMultipleEntry pool, n2, pool)
    else if pool.length < minEntriesPerLeaf ∧ n2.entries.length < minEntriesPerLeaf
        ∧ n1.entries.length > minEntriesPerLeaf then
      .ok (n1, n2.insertMultipleEntry pool, pool)
    else
      match pool with
      | [] => .ok (n1, n2, [])
      | [e] =>
        let g := e.insertIntoAny n1 n2
        distribLoop fuel [e] g.1 g.2
      | e :: rest =>
        let g := e.insertIntoAny n1 n2
        distribLoop fuel rest g.1 g.2

/-- The split distribution loop of node.splitNode, identical in structure
but distributing child nodes via snPickNext / snInsertIntoAny. -/
def distribLoopN : ℕ → List Node → Node → Node → Except Failure (Node × Node × List Node)
  | 0, _, _, _ => .error .outOfFuel
  | fuel+1, pool, n1, n2 =>
    if pool.isEmpty then .ok (n1, n2, pool)
    else if pool.length < minEntriesPerLeaf ∧ n1.children.length < minEntriesPerLeaf
        ∧ n2.children.length > minEntriesPerLeaf then
      .ok (n1.insertMultipleChildren pool, n2, pool)
    else if pool.length < minEntriesPerLeaf ∧ n2.children.length < minEntriesPerLeaf
        ∧ n1.children.length > minEntriesPerLeaf then
      .ok (n1, n2.insertMultipleChildren pool, pool)
    else
      match pool with
      | [] => .ok (n1, n2, [])
      | [c] =>
        let g := c.snInsertIntoAny n1 n2
        distribLoopN fuel [c] g.1 g.2
      | c :: rest =>
        let g := c.snInsertIntoAny n1 n2
        distribLoopN fuel rest g.1 g.2

/-- node.splitLeaf: insert the overflowing entry, pick the seeds (placed
into two fresh zero-mbr nodes without expanding their mbrs, exactly as the
Go code appends to n1.entries and n2.entries directly), then run the
distribution loop.  Besides the two halves, the final state of the drained
node (its expanded mbr, its children and the leftover pool) is returned
for the adjustment cascade, which in Go reaches that state through the
node pointer. -/
def Node.splitLeafF (fuel : ℕ) (n : Node) (e : Entry) :
    Except Failure (Node × Node × Node) := do
  let n := n.insertEntry e
  let (s1, s2, pool) ← n.linearPickSeed
  let n1 : Node := .mk zeroMbr [] [s1]
  let n2 : Node := .mk zeroMbr [] [s2]
  let (g1, g2, rest) ← distribLoop fuel pool n1 n2
  .ok (g1, g2, .mk n.mbr n.children rest)

/-- node.splitNode: the same split for an overflowing child list. -/
def Node.splitNodeF (fuel : ℕ) (n : Node) (child : Node) :
    Except Failure (Node × Node × Node) := do
  let n := n.insertChild child
  let (s1, s2, pool) ← n.snLinearPickSeed
  let n1 : Node := .mk zeroMbr [s1] []
  let n2 : Node := .mk zeroMbr [s2] []
  let (g1, g2, rest) ← distribLoopN fuel pool n1 n2
  .ok (g1, g2, .mk n.mbr rest n.entries)

/-- The scan of findMBRNeedingLeastExpansion, over (index, child) pairs so
that the chosen child's position is available (Go returns the pointer).
The accumulator carries the least percentage seen, the chosen index and the
chosen child; the percentage starts at 0.00 and the chosen child at
children[0], as in the source. -/
def findMBRCore (toAccommodate : Entry) (c0 : Node) (pairs : List (ℕ × Node)) : ℕ :=
  let r := pairs.foldl
    (fun (st : FVal × ℕ × Node) p =>
      let expansionPercentage := p.2.mbr.calculatePercentageExpansion toAccommodate.mbr
      if expansionPercentage.lt st.1 then (expansionPercentage, p.1, p.2)
      else if expansionPercentage.feq st.1 then
        if p.2.mbr.area < st.2.2.mbr.area then (st.1, p.1, p.2) else st
      else st)
    (.fin 0, 0, c0)
  r.2.1

/-- findMBRNeedingLeastExpansion on a node's children, returning the index
of the chosen child; zero-length children is the source's explicit panic. -/
def findMBRNeedingLeastExpansionIdx (toAccommodate : Entry) (children : List Node) :
    Except Failure ℕ :=
  match children with
  | [] => .error (.panicked "zero length children passed to findMBRNeedingLeastExpansion")
  | c0 :: _ => .ok (findMBRCore toAccommodate c0 children.enum)

/-- node.isParentToLeafNode: false for a leaf; otherwise tests whether
children[0] holds entries — on a node with neither children nor entries
that dereference is a Go index-out-of-range panic. -/
def Node.isParentToLeafNode (n : Node) : Except Failure Bool :=
  if n.isLeaf then .ok false
  else
    match n.children with
    | [] => .error (.panicked "runtime error: index out of range")
    | c :: _ => .ok (c.entries.length ≠ 0)

/-- The child-scanning loop of RTree.walkDown: return the index of the
first child the new entry's mbr canFitWithin (Go returns that child
immediately), otherwise collect the (index, child) pairs whose mbrs overlap
the entry's. -/
def findFitOrOverlaps (toFit : Entry) : List (ℕ × Node) → Except ℕ (List (ℕ × Node))
  | [] => .ok []
  | (i, c) :: rest =>
    if toFit.mbr.canFitWithin c.mbr then .error i
    else do
      let ov ← findFitOrOverlaps toFit rest
      .ok (if c.mbr.overlapsWith toFit.mbr then (i, c) :: ov else ov)

/-- RTree.walkDown, producing the child-index path (from the starting node)
of the node Go would return.  The recursion into the least-expansion
overlapping child is fuelled; Failure.outOfFuel marks exhaustion. -/
def walkDownPath (toFit : Entry) : ℕ → Node → List ℕ → Except Failure (List ℕ)
  | 0, _, _ => .error .outOfFuel
  | fuel+1, cur, path => do
    let isP ← cur.isParentToLeafNode
    if isP then .ok path
    else
      match findFitOrOverlaps toFit cur.children.enum with
      | .error i => .ok (path ++ [i])
      | .ok overlaps =>
        if overlaps.isEmpty then do
          let i ← findMBRNeedingLeastExpansionIdx toFit cur.children
          .ok (path ++ [i])
        else
          match overlaps with
          | [] => .error (.panicked "unreachable")
          | o0 :: _ =>
            let j := findMBRCore toFit o0.2 overlaps
            match cur.children.get? j with
            | some c => walkDownPath toFit fuel c (path ++ [j])
            | none => .error (.panicked "invalid path")

/-- Fetch the node a child-index path leads to. -/
def nodeAt : Node → List ℕ → Except Failure Node
  | n, [] => .ok n
  | n, i :: rest =>
    match n.children.get? i with
    | some c => nodeAt c rest
    | none => .error (.panicked "invalid path")

/-- RTree: the tree structure of tree.go. -/
structure RTree where
  height : ℤ
  indexCount : ℤ
  totalNodes : ℤ
  root : Node
deriving DecidableEq

/-- rtree.NewWithEntry. -/
def NewWithEntry (e : Entry) : RTree :=
  { height := 0, indexCount := 1, totalNodes := 1
    root := .mk (newMBRAround e.job.location) [] [e] }

/-- RTree.chooseLeaf, as a child-index path from the root: the root itself
when the root is a leaf, otherwise walkDown followed by
findMBRNeedingLeastExpansion among the reached node's children. -/
def RTree.chooseLeafPath (fuel : ℕ) (t : RTree) (e : Entry) :
    Except Failure (List ℕ) := do
  if t.root.isLeaf then .ok []
  else do
    let p ← walkDownPath e fuel t.root []
    let node ← nodeAt t.root p
    let i ← findMBRNeedingLeastExpansionIdx e node.children
    .ok (p ++ [i])

/-- Insert an entry at the leaf a path leads to and propagate the mbr
expansion to every ancestor on the path — node.insertEntry at the leaf
followed by RTree.adjustParentOf, which expands each parent's mbr to
accommodate its updated child's mbr. -/
def insertEntryAt : Node → List ℕ → Entry → Except Failure Node
  | n, [], e => .ok (n.insertEntry e)
  | n, i :: rest, e =>
    match n.children.get? i with
    | some c => do
      let c2 ← insertEntryAt c rest e
      .ok (.mk (n.mbr.expandToAccommodate c2.mbr) (n.children.set i c2) n.entries)
    | none => .error (.panicked "invalid path")

/-- Replace the node at a path without touching any ancestor mbr (the
split-absorption case of the cascade performs no upward adjustment beyond
the parent itself). -/
def replaceAt : Node → List ℕ → Node → Except Failure Node
  | _, [], r => .ok r
  | n, i :: rest, r =>
    match n.children.get? i with
    | some c => do
      let c2 ← replaceAt c rest r
      .ok (.mk n.mbr (n.children.set i c2) n.entries)
    | none => .error (.panicked "invalid path")

/-- node.removeChild in the split cascade, where Go finds the child by
pointer: the child sits at a known index, and the mbr shrink uses the
child pointer's current (drained, re-expanded) mbr. -/
def Node.removeChildIdx (n : Node) (i : ℕ) (childMbr : Mbr) : Node :=
  .mk (n.mbr.shrinkOnRemoval childMbr) (n.children.eraseIdx i) n.entries

/-- RTree.adjustParentOnSplitOf on the reversed path of the node that
split.  `drained` is that node's current value (Go reaches it through the
pointer).  Reversed-path [] is the root case: insert both halves as
children of the drained node, clear its entries and grow the tree.
Otherwise remove the node from its parent (shrinking the parent's mbr with
the drained node's mbr), insert the first half, and either absorb the
second half when the parent has node space — rebuilding the tree along the
remaining path without further mbr adjustment — or split the parent and
recurse one level up. -/
def adjustOnSplitRev (fuel : ℕ) (root : Node) :
    List ℕ → Node → Node → Node → Except Failure (Node × Bool)
  | [], drained, n1, n2 =>
    let r1 := drained.insertChild n1
    let r2 := r1.insertChild n2
    .ok (.mk r2.mbr r2.children [], true)
  | i :: revRest, drained, n1, n2 => do
    let parent ← nodeAt root revRest.reverse
    let parent1 := parent.removeChildIdx i drained.mbr
    let parent2 := parent1.insertChild n1
    if parent2.hasNodeSpace then do
      let parent3 := parent2.insertChild n2
      let root2 ← replaceAt root revRest.reverse parent3
      .ok (root2, false)
    else do
      let (p1, p2, pd) ← parent2.splitNodeF fuel n2
      adjustOnSplitRev fuel root revRest pd p1 p2

/-- RTree.Insert: chooseLeaf, then either a plain insert with upward mbr
adjustment, or a leaf split followed by the parent-adjustment cascade
(which increments the height exactly when the root split). -/
def RTree.InsertF (fuel : ℕ) (t : RTree) (e : Entry) : Except Failure RTree := do
  let path ← t.chooseLeafPath fuel e
  let leaf ← nodeAt t.root path
  if leaf.hasEntrySpace then do
    let root2 ← insertEntryAt t.root path e
    .ok { t with root := root2 }
  else do
    let (l1, l2, drained) ← leaf.splitLeafF fuel e
    let (root2, grew) ← adjustOnSplitRev fuel t.root path.reverse drained l1 l2
    .ok { t with root := root2, height := if grew then t.height + 1 else t.height }

/-- rtree.NewWithEntries: error on an empty job list, otherwise a tree
seeded with the first job into which the remaining jobs are inserted. -/
def NewWithEntriesF (fuel : ℕ) (jobs : List Job) : Except Failure RTree :=
  match jobs with
  | [] => .error (.returnedError "cannot initialize tree with empty entries")
  | j :: rest =>
    rest.foldlM (fun t jb => t.InsertF fuel (NewEntry jb)) (NewWithEntry (NewEntry j))

/-- node.fetchJobs: on a leaf, keep the jobs whose haversine distance from
the center — the FIRST component (miles) of the external library's
(mi, km) result — is at most within.Value; on a non-leaf, the empty list.
`hav` is the external haversine.Distance function. -/
def Node.fetchJobs (hav : Location → Location → ℚ × ℚ) (n : Node)
    (within : Distance) (center : Location) : List Job :=
  if !n.isLeaf then []
  else
    n.entries.foldl
      (fun jobs e =>
        if (hav center e.job.location).1 ≤ within.value then jobs ++ [e.job] else jobs)
      []

/-- rtree.search: scan every job list of the title map and keep the jobs
whose kilometre haversine distance — the SECOND component of the library's
(mi, km) result — is at most within.Value.  The Go map is modelled as an
association list. -/
def search (hav : Location → Location → ℚ × ℚ) (within : Distance)
    (center : Location) (d : List (String × List Job)) : List Job :=
  d.foldl
    (fun jobs p =>
      p.2.foldl
        (fun jobs j =>
          if (hav center j.location).2 ≤ within.value then jobs ++ [j] else jobs)
        jobs)
    []

/-- RTree.FindJobs: build a throwaway entry around the center; if its mbr
cannot fit within the root's mbr return the empty list, else scan the root
leaf or fall back to the title-map scan. -/
def RTree.FindJobs (hav : Location → Location → ℚ × ℚ) (t : RTree)
    (within : Distance) (center : Location) (d : List (String × List Job)) : List Job :=
  let job : Job := { title := "", location := center }
  let e := NewEntry job
  if !(e.mbr.canFitWithin t.root.mbr) then []
  else if t.root.isLeaf then t.root.fetchJobs hav within center
  else search hav within center d

/-! ### Concrete inputs and spec-side definitions used by the claim theorems -/

/-- A haversine instance for concrete evaluations (the guard of FindJobs
short-circuits before any distance is computed, so the choice is
immaterial there). -/
def hav0 : Location → Location → ℚ × ℚ := fun _ _ => (0, 0)

/-- A job titled "X" at the origin. -/
def jobX : Job := ⟨"X", ⟨0, 0⟩⟩

/-- The tree built from the single job `jobX`. -/
def treeX : RTree := NewWithEntry (NewEntry jobX)

/-- 30 jobs, titled "0" … "29", all at the origin. -/
def jobsIdent : List Job := (List.range 30).map (fun i => ⟨toString i, ⟨0, 0⟩⟩)

/-- A leaf node holding the 30 identical-location entries, its mbr
maintained by insertEntry as the tree would. -/
def nodeIdent : Node :=
  (jobsIdent.map NewEntry).foldl Node.insertEntry (.mk (newMBRAround ⟨0, 0⟩) [] [])

/-- The 31st identical-location entry, titled "30". -/
def e30ident : Entry := NewEntry ⟨"30", ⟨0, 0⟩⟩

/-- The titles of the two halves a split produced (none on failure). -/
def splitTitles (r : Except Failure (Node × Node × Node)) :
    Option (List String × List String) :=
  match r with
  | .ok (a, b, _) => some (a.entries.map (fun e => e.job.title),
      b.entries.map (fun e => e.job.title))
  | .error _ => none

/-- The i-th concentric entry: a square mbr of half-side i+1 centred at the
origin, so that each later entry strictly contains every earlier one. -/
def entConc (i : ℕ) : Entry :=
  ⟨⟨toString i, ⟨0, 0⟩⟩, ⟨(i+1 : ℚ), -(i+1 : ℚ), (i+1 : ℚ), -(i+1 : ℚ)⟩⟩

/-- A node holding the 30 concentric entries 0 … 29 under the mbr that
bounds them. -/
def nodeConc : Node := .mk ⟨30, -30, 30, -30⟩ [] ((List.range 30).map entConc)

/-- The overflowing 31st concentric entry. -/
def e31conc : Entry := entConc 30

/-- One non-exiting iteration of the splitLeaf distribution loop: pickNext
(which leaves a length-one pool in place) followed by insertIntoAny. -/
def dStep : List Entry × Node × Node → List Entry × Node × Node
  | ([], n1, n2) => ([], n1, n2)
  | ([e], n1, n2) =>
    let g := e.insertIntoAny n1 n2
    ([e], g.1, g.2)
  | (e :: rest, n1, n2) =>
    let g := e.insertIntoAny n1 n2
    (rest, g.1, g.2)

/-- The distribution loop neither runs out of pool nor hits a
forced-assignment break at this state. -/
def noExitB (s : List Entry × Node × Node) : Bool :=
  !s.1.isEmpty
  && !(decide (s.1.length < minEntriesPerLeaf ∧ s.2.1.entries.length < minEntriesPerLeaf
      ∧ s.2.2.entries.length > minEntriesPerLeaf))
  && !(decide (s.1.length < minEntriesPerLeaf ∧ s.2.2.entries.length < minEntriesPerLeaf
      ∧ s.2.1.entries.length > minEntriesPerLeaf))

/-- A pool of exactly one entry with both groups at or above the minimum
fanout: from here the loop can never exit (pickNext leaves the last entry
in place and neither forced-assignment condition can fire again). -/
def tailInvB (s : List Entry × Node × Node) : Bool :=
  s.1.length == 1 && minEntriesPerLeaf ≤ s.2.1.entries.length
    && minEntriesPerLeaf ≤ s.2.2.entries.length

/-- k non-exiting loop iterations from this state reach a state satisfying
tailInvB. -/
def stuckAfter : ℕ → (List Entry × Node × Node) → Bool
  | 0, s => tailInvB s
  | k+1, s => noExitB s && stuckAfter k (dStep s)

/-- The pool the seed pick leaves for the concentric node: the seed pick
returns entries 0 and 30 but deletes entries 30 and 1, so entry 0 stays in
the pool although it is also the first seed. -/
def c4pool : List Entry := entConc 0 :: ((List.range 28).map (fun i => entConc (i+2)))

/-- 31 jobs, titled "0" … "30", all at longitude −100, latitude −100. -/
def jobs31far : List Job := (List.range 31).map (fun i => ⟨toString i, ⟨-100, -100⟩⟩)

/-- The failure a tree construction ended in, if any. -/
def buildOutcome (r : Except Failure RTree) : Option Failure :=
  match r with
  | .ok _ => none
  | .error f => some f

/-- The rectangle constants of the C6 evaluation: a parent bounding two
unit-square children. -/
def c6child1 : Node := .mk ⟨1, 0, 1, 0⟩ [] []

/-- Second child of the C6 parent. -/
def c6child2 : Node := .mk ⟨2, 1, 2, 1⟩ [] []

/-- The C6 parent node: rect (0,2)×(0,2) over the two children. -/
def c6node : Node := .mk ⟨2, 0, 2, 0⟩ [c6child1, c6child2] []

/-- Following the spec's words for C6: the fresh union bounding box of a
list of rects, recomputed from scratch (none for the empty list). -/
def specFreshUnionMbr : List Mbr → Option Mbr
  | [] => none
  | m :: rest => some (rest.foldl Mbr.expandToAccommodate m)

/-- Following the spec's words for C7: self contains other without
expansion iff other fits strictly inside self on both axes and self.area
is at least other.area. -/
def specContainsWithoutExpansion (self other : Mbr) : Prop :=
  (self.minX < other.minX ∧ other.maxX < self.maxX
    ∧ self.minY < other.minY ∧ other.maxY < self.maxY)
  ∧ other.area ≤ self.area

instance (self other : Mbr) : Decidable (specContainsWithoutExpansion self other) := by
  unfold specContainsWithoutExpansion
  infer_instance

/-- The C7 rectangles: a large container and a small rectangle strictly
inside it. -/
def c7self : Mbr := ⟨10, 0, 10, 0⟩

/-- The contained C7 rectangle. -/
def c7other : Mbr := ⟨3, 2, 3, 2⟩

/-- An empty node: no children, no entries. -/
def emptyNode : Node := .mk zeroMbr [] []

/-- A tree whose root is the empty node. -/
def emptyTree : RTree := ⟨0, 0, 0, emptyNode⟩

/-- The entry used to probe chooseLeaf on the empty tree. -/
def eX : Entry := NewEntry jobX

/-! ### Lemmas and claim theorems -/

attribute [local semireducible] Rat.add Rat.mul Rat.sub Rat.inv

set_option maxRecDepth 8000

/-- Accessor of the node constructor. -/
@[simp] lemma Node.mbr_mk (m : Mbr) (c : List Node) (e : List Entry) :
    (Node.mk m c e).mbr = m := rfl

/-- Accessor of the node constructor. -/
@[simp] lemma Node.children_mk (m : Mbr) (c : List Node) (e : List Entry) :
    (Node.mk m c e).children = c := rfl

/-- Accessor of the node constructor. -/
@[simp] lemma Node.entries_mk (m : Mbr) (c : List Node) (e : List Entry) :
    (Node.mk m c e).entries = e := rfl

/-- expandToAccommodate computes the componentwise min/max union box. -/
lemma expand_maxY (a b : Mbr) :
    (a.expandToAccommodate b).maxY = max a.maxY b.maxY := by
  unfold Mbr.expandToAccommodate
  dsimp only
  split_ifs <;> simp only [max_def] <;> split_ifs <;> first | rfl | linarith

lemma expand_minY (a b : Mbr) :
    (a.expandToAccommodate b).minY = min a.minY b.minY := by
  unfold Mbr.expandToAccommodate
  dsimp only
  split_ifs <;> simp only [min_def] <;> split_ifs <;> first | rfl | linarith

lemma expand_maxX (a b : Mbr) :
    (a.expandToAccommodate b).maxX = max a.maxX b.maxX := by
  unfold Mbr.expandToAccommodate
  dsimp only
  split_ifs <;> simp only [max_def] <;> split_ifs <;> first | rfl | linarith

lemma expand_minX (a b : Mbr) :
    (a.expandToAccommodate b).minX = min a.minX b.minX := by
  unfold Mbr.expandToAccommodate
  dsimp only
  split_ifs <;> simp only [min_def] <;> split_ifs <;> first | rfl | linarith

lemma expandToAccommodate_eq (a b : Mbr) :
    a.expandToAccommodate b =
      ⟨max a.maxY b.maxY, min a.minY b.minY, max a.maxX b.maxX, min a.minX b.minX⟩ := by
  have h1 := expand_maxY a b
  have h2 := expand_minY a b
  have h3 := expand_maxX a b
  have h4 := expand_minX a b
  cases hE : a.expandToAccommodate b with
  | mk w x y z =>
    rw [hE] at h1 h2 h3 h4
    simp only at h1 h2 h3 h4
    simp [Mbr.mk.injEq, h1, h2, h3, h4]

/-- C10: expandToAccommodate is the componentwise union bounding box, hence
commutative and idempotent, and its result contains both operands'
bounds. -/
theorem expandToAccommodate_union_properties (a b : Mbr) :
    a.expandToAccommodate b =
      ⟨max a.maxY b.maxY, min a.minY b.minY, max a.maxX b.maxX, min a.minX b.minX⟩
    ∧ a.expandToAccommodate b = b.expandToAccommodate a
    ∧ a.expandToAccommodate a = a
    ∧ ((a.expandToAccommodate b).minX ≤ a.minX ∧ a.maxX ≤ (a.expandToAccommodate b).maxX
       ∧ (a.expandToAccommodate b).minY ≤ a.minY ∧ a.maxY ≤ (a.expandToAccommodate b).maxY)
    ∧ ((a.expandToAccommodate b).minX ≤ b.minX ∧ b.maxX ≤ (a.expandToAccommodate b).maxX
       ∧ (a.expandToAccommodate b).minY ≤ b.minY ∧ b.maxY ≤ (a.expandToAccommodate b).maxY) := by
  refine ⟨expandToAccommodate_eq a b, ?_, ?_, ?_, ?_⟩
  · rw [expandToAccommodate_eq, expandToAccommodate_eq]
    simp [max_comm, min_comm]
  · rw [expandToAccommodate_eq]
    simp
  · rw [expandToAccommodate_eq]
    exact ⟨min_le_left _ _, le_max_left _ _, min_le_left _ _, le_max_left _ _⟩
  · rw [expandToAccommodate_eq]
    exact ⟨min_le_right _ _, le_max_right _ _, min_le_right _ _, le_max_right _ _⟩

/-- The characterization the source actually implements: m canFitWithin
other iff m sits strictly inside other on both axes while m's area is at
least other's. -/
lemma canFitWithin_eq_true_iff (m other : Mbr) :
    m.canFitWithin other = true ↔
      ((other.minX < m.minX ∧ m.maxX < other.maxX
        ∧ other.minY < m.minY ∧ m.maxY < other.maxY)
       ∧ other.area ≤ m.area) := by
  unfold Mbr.canFitWithin
  split_ifs with h
  · simp only [Bool.false_eq_true, false_iff]
    rintro ⟨-, hle⟩
    exact absurd h (not_lt.mpr hle)
  · have hle : other.area ≤ m.area := not_lt.mp h
    simp only [Bool.and_eq_true, decide_eq_true_eq, gt_iff_lt]
    constructor
    · rintro ⟨⟨h1, h2⟩, h3, h4⟩
      exact ⟨⟨h1, h2, h3, h4⟩, hle⟩
    · rintro ⟨⟨h1, h2, h3, h4⟩, -⟩
      exact ⟨⟨h1, h2⟩, h3, h4⟩

/-- C7 counterexample: with self = (0,10)×(0,10) and other = (2,3)×(2,3),
other fits strictly inside self and self.area ≥ other.area, so the claim
predicts the containment test succeeds; the source's test — other can fit
within self, i.e. canFitWithin with m := other — returns false, because its
area comparison is reversed (it demands the contained rectangle's area be
at least the container's). -/
theorem canFitWithin_counterexample :
    specContainsWithoutExpansion c7self c7other
    ∧ c7other.canFitWithin c7self = false := by
  constructor
  · unfold specContainsWithoutExpansion c7self c7other
    norm_num [Mbr.area, Mbr.height, Mbr.width]
  · norm_num [Mbr.canFitWithin, c7self, c7other, Mbr.area, Mbr.height, Mbr.width]

/-- C7 amended: the containment test returns true iff the contained
rectangle sits strictly inside the container on both axes AND the contained
rectangle's area is at least the container's (the area comparison is the
reverse of the claim's; for rectangles with minX ≤ maxX and minY ≤ maxY the
two conjuncts are incompatible, so the test is then constantly false). -/
theorem canFitWithin_amended (self other : Mbr) :
    other.canFitWithin self = true ↔
      ((self.minX < other.minX ∧ other.maxX < self.maxX
        ∧ self.minY < other.minY ∧ other.maxY < self.maxY)
       ∧ self.area ≤ other.area) :=
  canFitWithin_eq_true_iff other self

/-- The probe entry FindJobs builds around the query center can never fit
within any rectangle: canFitWithin demands the probe's area (exactly
(2/5)·(2/5)) be at least the root rect's while the root rect strictly
contains the probe on both axes, forcing the root rect's area strictly
above the probe's. -/
lemma entry_canFitWithin_false (c : Location) (r : Mbr) :
    (newMBRAround c).canFitWithin r = false := by
  rw [Bool.eq_false_iff]
  intro htrue
  rw [canFitWithin_eq_true_iff] at htrue
  unfold newMBRAround arbitraryMBRDimFactor at htrue
  simp only [Mbr.area, Mbr.height, Mbr.width] at htrue
  obtain ⟨⟨h1, h2, h3, h4⟩, hle⟩ := htrue
  have hw : (2 : ℚ)/5 < r.maxX - r.minX := by linarith
  have hh : (2 : ℚ)/5 < r.maxY - r.minY := by linarith
  have hprod : (4 : ℚ)/25 < (r.maxY - r.minY) * (r.maxX - r.minX) := by nlinarith
  have habs : (r.maxY - r.minY) * (r.maxX - r.minX)
      ≤ |(r.maxY - r.minY) * (r.maxX - r.minX)| := le_abs_self _
  have hml : (c.longitude + 1/5 - (c.longitude - 1/5))
      * (c.latitude + 1/5 - (c.latitude - 1/5)) = (4 : ℚ)/25 := by ring
  rw [hml] at hle
  have h425 : |(4 : ℚ)/25| = (4 : ℚ)/25 := by norm_num
  rw [h425] at hle
  linarith

/-- FindJobs returns the empty list on every input: its entry guard — the
probe mbr around the center canFitWithin the root mbr — always fails. -/
lemma findJobs_eq_nil (hav : Location → Location → ℚ × ℚ) (t : RTree)
    (w : Distance) (c : Location) (d : List (String × List Job)) :
    t.FindJobs hav w c d = [] := by
  unfold RTree.FindJobs
  simp [NewEntry, entry_canFitWithin_false]

/-- C2: for every tree with a valid root rectangle, and all query
parameters, FindJobs returns the empty list — the canFitWithin guard at its
entry can never pass, so neither the leaf scan nor the map scan is
reached. -/
theorem findJobs_always_empty (hav : Location → Location → ℚ × ℚ) (t : RTree)
    (w : Distance) (c : Location) (d : List (String × List Job))
    (hx : t.root.mbr.minX ≤ t.root.mbr.maxX)
    (hy : t.root.mbr.minY ≤ t.root.mbr.maxY) :
    t.FindJobs hav w c d = [] :=
  findJobs_eq_nil hav t w c d

/-- The root rectangle of the singleton tree is valid on both axes. -/
lemma treeX_root_valid :
    treeX.root.mbr.minX ≤ treeX.root.mbr.maxX
    ∧ treeX.root.mbr.minY ≤ treeX.root.mbr.maxY := by
  norm_num [treeX, NewWithEntry, NewEntry, newMBRAround, arbitraryMBRDimFactor, jobX,
    Node.mbr]

/-- Witness for C2 at the singleton tree around the origin. -/
theorem findJobs_always_empty_witness :
    (treeX.root.mbr.minX ≤ treeX.root.mbr.maxX
      ∧ treeX.root.mbr.minY ≤ treeX.root.mbr.maxY)
    ∧ treeX.FindJobs hav0 ⟨.kilometer, 50⟩ ⟨0, 0⟩ [] = [] :=
  ⟨treeX_root_valid,
    findJobs_always_empty hav0 treeX ⟨.kilometer, 50⟩ ⟨0, 0⟩ []
      treeX_root_valid.1 treeX_root_valid.2⟩

/-- C3: every job returned by a radius search with center c and radius
within.value satisfies any distance bound one cares to state — in
particular the kilometre component of the haversine pair is at most the
radius — because the returned list is always empty (see the guard analysis
of findJobs_eq_nil). -/
theorem findJobs_no_false_positives (hav : Location → Location → ℚ × ℚ)
    (t : RTree) (w : Distance) (c : Location) (d : List (String × List Job)) :
    (t.FindJobs hav w c d).all (fun j => (hav c j.location).2 ≤ w.value) = true := by
  rw [findJobs_eq_nil]
  rfl

/-- C1: building the tree from the single job "X" at the origin and
searching at that very location with radius 0.1 km returns a list that
does not contain the job: the guard of FindJobs rejects every query. -/
theorem findJobs_false_negative_at_inserted_job :
    (NewWithEntriesF 1 [jobX]).map
      (fun t => t.FindJobs hav0 ⟨.kilometer, 1/10⟩ jobX.location []) = .ok []
    ∧ jobX ∉ ([] : List Job) := by
  refine ⟨?_, by simp⟩
  show Except.map _ _ = _
  norm_num [NewWithEntriesF, NewWithEntry, Except.map, pure, Except.pure, findJobs_eq_nil]

/-- The distribution step never removes entries from either group. -/
lemma insertIntoAny_entries_le (e : Entry) (n1 n2 : Node) :
    n1.entries.length ≤ (e.insertIntoAny n1 n2).1.entries.length
    ∧ n2.entries.length ≤ (e.insertIntoAny n1 n2).2.entries.length := by
  unfold Entry.insertIntoAny
  simp only [Node.insertEntry]
  split_ifs <;> simp

/-- One unfolding of the distribution loop at a state where neither the
pool-exhaustion exit nor a forced-assignment break applies. -/
lemma distribLoop_succ_noExit (fuel : ℕ) (pool : List Entry) (n1 n2 : Node)
    (h : noExitB (pool, n1, n2) = true) :
    distribLoop (fuel+1) pool n1 n2 =
      distribLoop fuel (dStep (pool, n1, n2)).1 (dStep (pool, n1, n2)).2.1
        (dStep (pool, n1, n2)).2.2 := by
  unfold noExitB at h
  simp only [Bool.and_eq_true, Bool.not_eq_true', decide_eq_false_iff_not] at h
  obtain ⟨⟨hne, hb1⟩, hb2⟩ := h
  cases pool with
  | nil => simp at hne
  | cons e rest =>
    cases rest with
    | nil =>
      simp only [distribLoop, dStep, List.isEmpty_cons, Bool.false_eq_true, if_false,
        if_neg hb1, if_neg hb2]
    | cons e2 rest2 =>
      simp only [distribLoop, dStep, List.isEmpty_cons, Bool.false_eq_true, if_false,
        if_neg hb1, if_neg hb2]

/-- Once the pool holds exactly one entry and both groups have at least
minEntriesPerLeaf entries, the distribution loop consumes every amount of
fuel without exiting: pickNext returns the last entry without removing it,
insertIntoAny only grows the groups, and no exit condition can fire. -/
lemma distribLoop_stuck : ∀ (fuel : ℕ) (pool : List Entry) (n1 n2 : Node),
    pool.length = 1 → minEntriesPerLeaf ≤ n1.entries.length →
    minEntriesPerLeaf ≤ n2.entries.length →
    distribLoop fuel pool n1 n2 = .error .outOfFuel := by
  intro fuel
  induction fuel with
  | zero => intro pool n1 n2 _ _ _; rfl
  | succ fuel ih =>
    intro pool n1 n2 hlen h1 h2
    match pool, hlen with
    | [e], _ =>
      have hne : noExitB ([e], n1, n2) = true := by
        unfold noExitB
        simp only [Bool.and_eq_true, Bool.not_eq_true', decide_eq_false_iff_not,
          List.isEmpty_cons, Bool.not_false, List.length_cons, List.length_nil]
        unfold minEntriesPerLeaf maxEntriesPerLeaf at h1 h2 ⊢
        refine ⟨⟨trivial, ?_⟩, ?_⟩ <;> omega
      rw [distribLoop_succ_noExit fuel [e] n1 n2 hne]
      have hd : dStep ([e], n1, n2)
          = ([e], (e.insertIntoAny n1 n2).1, (e.insertIntoAny n1 n2).2) := by
        simp [dStep]
      rw [hd]
      have hle := insertIntoAny_entries_le e n1 n2
      exact ih [e] _ _ rfl (le_trans h1 hle.1) (le_trans h2 hle.2)

/-- A state from which k non-exiting iterations reach the stuck tail makes
the distribution loop exhaust any fuel. -/
lemma stuckAfter_spec : ∀ (k : ℕ) (s : List Entry × Node × Node),
    stuckAfter k s = true →
    ∀ fuel, distribLoop fuel s.1 s.2.1 s.2.2 = .error .outOfFuel := by
  intro k
  induction k with
  | zero =>
    intro s h fuel
    unfold stuckAfter tailInvB at h
    simp only [Bool.and_eq_true, beq_iff_eq, decide_eq_true_eq] at h
    exact distribLoop_stuck fuel s.1 s.2.1 s.2.2 h.1.1 h.1.2 h.2
  | succ k ih =>
    intro s h fuel
    unfold stuckAfter at h
    simp only [Bool.and_eq_true] at h
    cases fuel with
    | zero => rfl
    | succ fuel =>
      rw [distribLoop_succ_noExit fuel s.1 s.2.1 s.2.2 h.1]
      exact ih (dStep s) h.2 fuel

/-- C4: the insertion cascade does not always terminate.  Splitting the
node that holds the 31 concentric entries runs the splitLeaf distribution
loop forever: for every fuel bound the loop fails to exit.  After 28
iterations the pool is down to the single entry 29 with both groups
holding at least minEntriesPerLeaf entries; from there pickNext returns
the entry without removing it (its own doc comment says it removes), the
forced-assignment breaks cannot fire, and the loop repeats endlessly. -/
theorem splitLeaf_distribution_diverges :
    ∀ fuel : ℕ, Node.splitLeafF fuel nodeConc e31conc = .error .outOfFuel := by
  intro fuel
  have hseed : (nodeConc.insertEntry e31conc).linearPickSeed
      = .ok (entConc 0, entConc 30, c4pool) := by decide
  have hstuck : stuckAfter 28
      (c4pool, .mk zeroMbr [] [entConc 0], .mk zeroMbr [] [entConc 30]) = true := by decide
  have hloop := stuckAfter_spec 28
    (c4pool, .mk zeroMbr [] [entConc 0], .mk zeroMbr [] [entConc 30]) hstuck fuel
  have hloop2 : distribLoop fuel c4pool (.mk zeroMbr [] [entConc 0])
      (.mk zeroMbr [] [entConc 30]) = .error .outOfFuel := hloop
  unfold Node.splitLeafF Node.linearPickSeed at hseed ⊢
  dsimp only
  rw [hseed]
  dsimp only [bind, Except.bind]
  rw [hloop2]

/-- C5: splitting the leaf that holds the 31 identical-location entries
titled "0" … "30" does produce two halves whose sizes (25 and 6) lie within
the fanout bounds, but the items are not distributed one-to-one: the title
"1" entry — present exactly once among the 31 items — ends up in neither
half, while the title "0" entry appears twice (once as a seed and once
again from the pool, because the seed pick deleted entries 30 and 1 instead
of the two entries it returned). -/
theorem splitLeaf_duplicates_and_loses_items :
    ((nodeIdent.insertEntry e30ident).entries.map (fun e => e.job.title)).count "1" = 1
    ∧ (splitTitles (Node.splitLeafF 40 nodeIdent e30ident)).map
        (fun p => ((p.1 ++ p.2).count "1", (p.1 ++ p.2).count "0", p.1.length, p.2.length))
      = some (0, 2, 25, 6) := by
  exact ⟨by decide, by decide⟩

/-- C9: construction from the empty job list fails with the empty-input
error, but construction from the non-empty list of 31 jobs at longitude
−100, latitude −100 does not return a tree either: inserting the 31st job
splits the leaf, the seed-pick trackers never move off entries[0], and
removeEntries(0, 0) computes slice index −1 — a Go panic. -/
theorem newWithEntries_panics_on_31_identical_far_jobs :
    NewWithEntriesF 10 []
      = .error (.returnedError "cannot initialize tree with empty entries")
    ∧ NewWithEntriesF 10 jobs31far
      = .error (.panicked "runtime error: slice bounds out of range") := by
  exact ⟨rfl, by decide⟩

/-- C6: removeChild computes the parent rect by shrinkOnRemoval, not as the
fresh union of the remaining children: removing the (1,2)×(1,2) child from
the parent rect (0,2)×(0,2) with remaining child (0,1)×(0,1) subtracts the
shared maxX bound, yielding maxX = 0, while the fresh union of the
remaining child rects is (0,1)×(0,1). -/
theorem removeChild_shrink_is_not_fresh_union :
    (c6node.removeChild c6child2).mbr = ⟨2, 0, 0, 0⟩
    ∧ (c6node.removeChild c6child2).children = [c6child1]
    ∧ specFreshUnionMbr ((c6node.removeChild c6child2).children.map Node.mbr)
        = some ⟨1, 0, 1, 0⟩
    ∧ ((⟨2, 0, 0, 0⟩ : Mbr) ≠ ⟨1, 0, 1, 0⟩) := by
  exact ⟨by decide, by decide, by decide, by decide⟩

/-- C8 counterexample: on the tree whose root has no children and no
entries, chooseLeaf does not return the InvariantViolation error signal
the claim promises — it panics (walkDown dereferences children[0] of a
childless node). -/
theorem chooseLeaf_on_empty_root_no_invariantViolation :
    emptyTree.chooseLeafPath 1 eX
      = .error (.panicked "runtime error: index out of range")
    ∧ emptyTree.chooseLeafPath 1 eX ≠ .error Failure.invariantViolation := by
  exact ⟨by decide, by decide⟩

/-- C8 amended: invoking chooseLeaf on a tree whose root has zero children
and zero entries, or findMBRNeedingLeastExpansion (the helper chooseLeaf
and the insertion path rely on) with zero children, fails by panicking —
a crash, not an error signal returned to the caller. -/
theorem chooseLeaf_empty_root_panics (t : RTree) (e : Entry) (fuel : ℕ)
    (hc : t.root.children = []) (he : t.root.entries = []) :
    t.chooseLeafPath (fuel+1) e
      = .error (.panicked "runtime error: index out of range")
    ∧ findMBRNeedingLeastExpansionIdx e []
      = .error (.panicked "zero length children passed to findMBRNeedingLeastExpansion") := by
  refine ⟨?_, rfl⟩
  have hleaf : t.root.isLeaf = false := by
    simp [Node.isLeaf, hc, he]
  have hp : t.root.isParentToLeafNode
      = .error (.panicked "runtime error: index out of range") := by
    unfold Node.isParentToLeafNode
    rw [hleaf, hc]
    simp
  unfold RTree.chooseLeafPath
  rw [hleaf]
  simp only [Bool.false_eq_true, if_false, walkDownPath, hp, bind, Except.bind]

/-- Witness for the amended C8 at the concrete empty tree. -/
theorem chooseLeaf_empty_root_panics_witness :
    (emptyTree.root.children = [] ∧ emptyTree.root.entries = [])
    ∧ (emptyTree.chooseLeafPath 1 eX
        = .error (.panicked "runtime error: index out of range")
      ∧ findMBRNeedingLeastExpansionIdx eX []
        = .error (.panicked "zero length children passed to findMBRNeedingLeastExpansion")) :=
  ⟨⟨rfl, rfl⟩, chooseLeaf_empty_root_panics emptyTree eX 0 rfl rfl⟩

end GrabJobs
